import Mathlib

/-!
# Verification of the InfiniLM inference-orchestration layer

Shallow embedding of the session/cache lifecycle, the batching queue and
the backend forward-pass structure of the repository, with theorems
checking the natural-language specification against the code.

Conventions:
* tokens are natural numbers (`utok` is an unsigned integer in the source);
* fallible code returns `Option` (`none` models a Rust panic);
* `Result<(), ChatError>` is modelled by `Option ChatError` (the error slot);
* stateful methods take the state and return the updated state explicitly.
-/

namespace InfiniLM

/-! ## Batcher (src/service/src/session/batcher.rs)

The source wraps `(Vec<T>, bool)` in a mutex; the pure state is the pair.
`deq` blocks in `wait_while(|(q, a)| q.is_empty() && *a)`; we model the
state observed when the wait exits, i.e. when `¬(queue = [] ∧ alive)`. -/

structure Batcher (T : Type) where
  queue : List T
  alive : Bool
deriving Repr, DecidableEq

namespace Batcher

/-- `Batcher::new`: empty queue, alive. -/
def new (T : Type) : Batcher T := ⟨[], true⟩

/-- `Batcher::enq`: if alive, append the value; otherwise drop it silently. -/
def enq (b : Batcher T) (v : T) : Batcher T :=
  if b.alive then { b with queue := b.queue ++ [v] } else b

/-- The exit condition of `deq`'s `wait_while` loop: the queue is non-empty
or the batcher is dead.  `deq` returns without blocking iff this holds. -/
def deqReady (b : Batcher T) : Prop := ¬(b.queue = [] ∧ b.alive = true)

instance (b : Batcher T) [DecidableEq T] : Decidable b.deqReady := by
  unfold deqReady; infer_instance

/-- `Batcher::deq`: `mem::take` the whole vector — return it and leave the
queue empty. -/
def deq (b : Batcher T) : List T × Batcher T :=
  (b.queue, { b with queue := [] })

/-- `Batcher::shutdown`: set dead, clear pending items. -/
def shutdown (_b : Batcher T) : Batcher T :=
  { queue := [], alive := false }

/-- One mutating operation on the batcher, for reasoning about operation
sequences. -/
inductive Op (T : Type) where
  | enq (v : T)
  | deq
  | shutdown
deriving Repr

/-- Effect of one operation on the state. -/
def step (b : Batcher T) : Op T → Batcher T
  | .enq v => b.enq v
  | .deq => (b.deq).2
  | .shutdown => b.shutdown

/-- Run a sequence of operations. -/
def run (b : Batcher T) (ops : List (Op T)) : Batcher T :=
  ops.foldl step b

theorem run_nil (b : Batcher T) : b.run [] = b := rfl

theorem run_cons (b : Batcher T) (op : Op T) (ops : List (Op T)) :
    b.run (op :: ops) = (b.step op).run ops := rfl

/-- A dead batcher with an empty queue stays dead and empty under every
operation. -/
theorem step_dead (b : Batcher T) (op : Op T)
    (hq : b.queue = []) (ha : b.alive = false) :
    (b.step op).queue = [] ∧ (b.step op).alive = false := by
  cases op with
  | enq v => simp [step, enq, ha, hq]
  | deq => simp [step, deq, ha]
  | shutdown => simp [step, shutdown]

theorem run_dead (b : Batcher T) (ops : List (Op T))
    (hq : b.queue = []) (ha : b.alive = false) :
    (b.run ops).queue = [] ∧ (b.run ops).alive = false := by
  induction ops generalizing b with
  | nil => exact ⟨hq, ha⟩
  | cons op ops ih =>
    obtain ⟨hq', ha'⟩ := step_dead b op hq ha
    exact ih _ hq' ha'

end Batcher

/-! ## Dialog

`dialog.rs` is referenced by `src/service/src/session/mod.rs` but is not
among the provided source files, so the dialog is modelled from the spec:
an ordered sequence of sentences (contiguous token runs, parity-tagged:
even index = user, odd = assistant), with a token prefix-sum, truncation
by `revert`, and `window(len)` returning the most recent token suffix
fitting `len` together with its base position. -/

/-- Modelled from the spec: `Dialog` from the missing `dialog.rs` — an
ordered sequence of sentences, each a contiguous run of tokens. -/
structure Dialog where
  sentences : List (List Nat)
deriving Repr, DecidableEq

namespace Dialog

/-- Modelled from the spec: number of sentences of the dialog. -/
def num_sentences (d : Dialog) : Nat := d.sentences.length

/-- Modelled from the spec: total number of tokens over all sentences
(the running prefix-sum evaluated at the end). -/
def num_tokens (d : Dialog) : Nat := (d.sentences.map List.length).sum

/-- Modelled from the spec: append one sentence. -/
def push (d : Dialog) (s : List Nat) : Dialog := ⟨d.sentences ++ [s]⟩

/-- Modelled from the spec: truncate the dialog to its first `n`
sentences. -/
def revert (d : Dialog) (n : Nat) : Dialog := ⟨d.sentences.take n⟩

/-- Modelled from the spec: the last prompt — the final sentence when the
dialog currently ends with a user-parity sentence (even last index, i.e.
odd sentence count), otherwise nothing. -/
def last_prompt (d : Dialog) : Option (List Nat) :=
  if d.sentences.length % 2 = 1 then d.sentences.getLast? else none

/-- Modelled from the spec: the most recent token suffix fitting a window
of `len` tokens, together with the base position of that suffix. -/
def window (d : Dialog) (len : Nat) : List Nat × Nat :=
  let all := d.sentences.flatten
  (all.drop (all.length - len), all.length - len)

theorem num_sentences_push (d : Dialog) (s : List Nat) :
    (d.push s).num_sentences = d.num_sentences + 1 := by
  simp [push, num_sentences]

theorem num_sentences_revert (d : Dialog) (n : Nat) :
    (d.revert n).num_sentences = min n d.num_sentences := by
  simp [revert, num_sentences]

end Dialog

/-! ## Cache

`cache.rs` is likewise not among the provided source files.  The cache is
modelled from the spec: a token list plus window bookkeeping `start`
(first physically retained token) and `kvEnd` (one past the last token
whose KV has been computed).  The `end()` accessor is modelled as the
length of the token list: `Session::extend` (in the provided
`session/mod.rs`) asserts `cache.end() == dialog.num_tokens()` right
after appending freshly tokenized, not-yet-forwarded text, which forces
`end()` to track the token-list length rather than the KV high-water
mark. -/

/-- Modelled from the spec: the KV-cache bookkeeping of the missing
`cache.rs` — token prefix, window base `start`, KV high-water `kvEnd`. -/
structure Cache where
  tokens : List Nat
  start : Nat
  kvEnd : Nat
deriving Repr, DecidableEq

namespace Cache

/-- Modelled from the spec: `Cache::end()` — the number of tokens the
cache represents (see the module comment for why this is the token-list
length). -/
def end_ (c : Cache) : Nat := c.tokens.length

/-- Modelled from the spec: `Cache::extend` appends tokens to the token
list. -/
def extend (c : Cache) (ts : List Nat) : Cache :=
  { c with tokens := c.tokens ++ ts }

/-- Modelled from the spec: `Cache::push(token) = extend([token])`. -/
def push (c : Cache) (t : Nat) : Cache := c.extend [t]

/-- Modelled from the spec: `Cache::slice_tail(from)` borrows
`tokens[from..]`. -/
def slice_tail (c : Cache) (frm : Nat) : List Nat := c.tokens.drop frm

/-- Modelled from the spec: `Cache::revert(n)` — `None` when `n` lies
before the physical window base; otherwise shrink the token list to `n`
and clamp the KV high-water mark. -/
def revert (c : Cache) (n : Nat) : Option Cache :=
  if n < c.start then none
  else some { c with tokens := c.tokens.take n, kvEnd := min c.kvEnd n }

/-- Modelled from the spec: the length of the valid cached range
`[start, kvEnd)`. -/
def get_last_cached_range_len (c : Cache) : Nat := c.kvEnd - c.start

/-- Modelled from the spec: `Cache::reset_with(tokens, pos)` — discard the
KV window, keep the given tokens, base the window at `pos`. -/
def reset_with (_c : Cache) (ts : List Nat) (pos : Nat) : Cache :=
  { tokens := ts, start := pos, kvEnd := pos }

/-- Modelled from the spec: `Cache::cleanup_before_start` drops the tokens
physically preceding `start` from the logical token list. -/
def cleanup_before_start (c : Cache) : Cache :=
  { tokens := c.tokens.drop c.start, start := 0, kvEnd := c.kvEnd - c.start }

end Cache

/-! ## Session (src/service/src/session/mod.rs) -/

/-- `ChatError`: the only recoverable session-level error. -/
structure ChatError where
deriving Repr, DecidableEq

/-- `Session` (src/service/src/session/mod.rs).  The sample settings are
never inspected by the session logic, so their type is a parameter; the
cache is `none` while a `BusySession` borrows it.  The shared
`ServiceComponent` is immutable; the two model constants the session
logic reads from it (`max_seq_len`, `eos_token`) are passed to the
operations explicitly. -/
structure Session (σ : Type) where
  sample : σ
  dialog : Dialog
  cache : Option Cache
deriving Repr

/-- `Session::dialog_pos`. -/
def Session.dialog_pos (s : Session σ) : Nat := s.dialog.num_sentences

/-- `Session::revert` (src/service/src/session/mod.rs lines 79–98).
Returns `none` for a panic (the `Less` branch unwraps the cache), and
otherwise the updated session paired with the error slot of the returned
`Result<(), ChatError>`. -/
def Session.revert (maxSeqLen : Nat) (s : Session σ) (dialog_pos : Nat) :
    Option (Session σ × Option ChatError) :=
  if dialog_pos < s.dialog.num_sentences then
    -- `Less` branch
    match s.cache with
    | none => none
    | some cache =>
      let dialog := s.dialog.revert dialog_pos
      let last_prompt := (dialog.last_prompt).elim 0 List.length
      let cache :=
        match cache.revert dialog.num_tokens with
        | none =>
          let (tokens, pos) := dialog.window maxSeqLen
          cache.reset_with tokens pos
        | some reverted =>
          if reverted.get_last_cached_range_len < last_prompt then
            let (tokens, pos) := dialog.window maxSeqLen
            reverted.reset_with tokens pos
          else reverted
      some ({ s with dialog := dialog, cache := some cache }, none)
  else if dialog_pos = s.dialog.num_sentences then
    -- `Equal` branch
    some (s, none)
  else
    -- `Greater` branch
    some (s, some ChatError.mk)

/-- `Session::restore_cache` (src/service/src/session/mod.rs lines
137–148): if the cache holds more tokens than the dialog, append an EOS
and push the new tail as a fresh dialog sentence; then clean the cache up
and store it back. -/
def Session.restore_cache (eos : Nat) (s : Session σ) (cache : Cache) :
    Session σ :=
  let e := s.dialog.num_tokens
  let (cache, dialog) :=
    if e < cache.end_ then
      let cache := cache.push eos
      (cache, s.dialog.push (cache.slice_tail e))
    else (cache, s.dialog)
  { s with dialog := dialog, cache := some cache.cleanup_before_start }

/-- `impl Drop for BusySession` (src/service/src/session/mod.rs lines
165–170): restore the cache taken back from the task handle. -/
def BusySession.drop (eos : Nat) (s : Session σ) (taken : Cache) :
    Session σ :=
  s.restore_cache eos taken

/-! ## Tokenizer auto-detection (src/service/src/lib.rs)

`tokenizer` and `normalizer` probe the model directory for
`tokenizer.model` and `vocabs.txt`.  The directory is abstracted to the
two presence flags; a `none` result models the `panic!` branch. -/

/-- The two file-presence facts the loader inspects. -/
structure ModelDir where
  hasTokenizerModel : Bool
  hasVocabsTxt : Bool
deriving Repr, DecidableEq

/-- The tokenizer implementation selected by the loader. -/
inductive TokenizerKind where
  | bpe -- `Bpe::from_tokenizer_model`
  | lpe -- `Lpe::from_vocabs_txt`
deriving Repr, DecidableEq

/-- The normalizer implementation selected by the loader. -/
inductive NormalizerKind where
  | bpeCommon -- `BPECommonNormalizer`
  | identity -- `()`
deriving Repr, DecidableEq

/-- `tokenizer` (src/service/src/lib.rs lines 188–206): try
`tokenizer.model` first, then `vocabs.txt`, else panic. -/
def tokenizer (dir : ModelDir) : Option TokenizerKind :=
  if dir.hasTokenizerModel then some .bpe
  else if dir.hasVocabsTxt then some .lpe
  else none

/-- `normalizer` (src/service/src/lib.rs lines 178–186): byte-pair common
normalizer with `tokenizer.model`, identity with `vocabs.txt`, else
panic. -/
def normalizer (dir : ModelDir) : Option NormalizerKind :=
  if dir.hasTokenizerModel then some .bpeCommon
  else if dir.hasVocabsTxt then some .identity
  else none

/-! ## CPU transformer (src/transformer-cpu/src/lib.rs) -/

/-- The tensor data types involved in the CPU backend. -/
inductive DataType where
  | F16
  | BF16
  | F32
  | U32
deriving Repr, DecidableEq

/-- `Transformer::new` (src/transformer-cpu/src/lib.rs lines 37–46):
the data type of the model the transformer stores — models declared
`BF16` or `F32` are cast to `F16`, any other declared type is kept. -/
def Transformer.newModelDt (declared : DataType) : DataType :=
  match declared with
  | .BF16 | .F32 => .F16
  | d => d

/-- `Transformer::update` (src/transformer-cpu/src/lib.rs lines 58–113):
the data types of the hidden-state and workspace tensors
`x0, x1, qkv, x2, gate_up`, all created with `dt =
self.model.data_type()` of the stored model. -/
def Transformer.updateWorkspaceDts (modelDt : DataType) : List DataType :=
  [modelDt, modelDt, modelDt, modelDt, modelDt]

/-- `Transformer::decode` (src/transformer-cpu/src/lib.rs row 230): the
data type of the logits tensor. -/
def Transformer.decodeLogitsDt (modelDt : DataType) : DataType := modelDt

/-- A request of the CPU backend: a token slice and the number of prior
tokens. `seq_len` is the token-slice length. -/
structure Request where
  tokens : List Nat
  pos : Nat
deriving Repr, DecidableEq

/-- `Request::seq_len`. -/
def Request.seq_len (r : Request) : Nat := r.tokens.length

/-- `Request::att_len`. -/
def Request.att_len (r : Request) : Nat := r.pos + r.seq_len

/-- The assertion gate of `Transformer::decode`
(src/transformer-cpu/src/lib.rs row 218):
`assert!(requests.iter().all(|r| r.seq_len() == 1))`.  A failed assertion
is a panic, modelled as `none`; otherwise decode proceeds over the batch
(the returned value is the batch size `requests.len()` it computes next).
-/
def Transformer.decodeGate (requests : List Request) : Option Nat :=
  if requests.all (fun r => r.seq_len == 1) then some requests.length
  else none

/-! ## Tensor-parallel forward pass
(src/models/llama/nvidia-gpu-distributed/src/lib.rs)

The per-shard GPU kernel stream is modelled as a trace of the operations
each shard issues.  Only the structure the spec speaks about is kept:
which gemm carries which residual coefficient, the MLP residual flag, and
the collectives. -/

/-- Reduction kind of a collective. -/
inductive ReduceType where
  | sum -- `ReduceType::ncclSum`
deriving Repr, DecidableEq

/-- One operation issued on a shard's stream during `forward`. -/
inductive DistOp where
  /-- `rms_norm` kernel. -/
  | rmsNorm
  /-- the QKV-projection `mat_mul`. -/
  | matMulQKV
  /-- a `rope` kernel (applied to Q and to K). -/
  | rope
  /-- the per-request attention loop (reform / gemm / softmax / gemm). -/
  | attention
  /-- the output-projection `mat_mul` into the residual `x`, with its
  `beta` coefficient. -/
  | oProjMatMul (beta : Nat)
  /-- the fused `mlp` kernel writing into the residual `x`, with its
  residual flag. -/
  | mlpKernel (residual : Bool)
  /-- `comm.all_reduce` on the residual `x`. -/
  | allReduce (red : ReduceType)
deriving Repr, DecidableEq

/-- `Transformer::self_att`
(src/models/llama/nvidia-gpu-distributed/src/lib.rs lines 441–541) on
shard `i`: rms-norm, QKV projection, RoPE on Q and K, the per-request
attention loop, and the output projection whose `beta` is
`if i == 0 { 1. } else { 0. }`. -/
def selfAttOps (i : Nat) : List DistOp :=
  [.rmsNorm, .matMulQKV, .rope, .rope, .attention,
   .oProjMatMul (if i = 0 then 1 else 0)]

/-- `Transformer::mlp`
(src/models/llama/nvidia-gpu-distributed/src/lib.rs lines 543–577) on
shard `i`: rms-norm then the fused MLP kernel whose residual flag is
`i == 0`. -/
def mlpOps (i : Nat) : List DistOp :=
  [.rmsNorm, .mlpKernel (i == 0)]

/-- One iteration of the layer loop of `Transformer::forward`
(src/models/llama/nvidia-gpu-distributed/src/lib.rs lines 303–337) on
shard `i`: `self_att`, `all_reduce(ncclSum)`, `mlp`,
`all_reduce(ncclSum)`. -/
def layerOps (i : Nat) : List DistOp :=
  selfAttOps i ++ [.allReduce .sum] ++ mlpOps i ++ [.allReduce .sum]

/-- The whole layer loop of `Transformer::forward` on shard `i` over
`nlayers` layers. -/
def forwardOps (i : Nat) : Nat → List DistOp
  | 0 => []
  | nlayers + 1 => layerOps i ++ forwardOps i nlayers

/-! ## MoE top-k routing (src/models/mixtral/cpu/src/infer.rs)

`topk` enumerates each logits row into `WithIndex { idx, data }` values,
sorts them with the comparator `data.total_cmp(...).reverse()` (data
descending; ties left unspecified by `sort_unstable`) and keeps the first
`k`.  The `f16` payloads are modelled as integers — `topk` only compares
and moves them, and `total_cmp` on the values in play agrees with the
integer order.  `List.insertionSort` realizes one admissible behaviour of
`sort_unstable` with this comparator. -/

/-- `WithIndex` from `topk`: a logits entry together with its column. -/
structure WithIndex where
  idx : Nat
  data : Int
deriving Repr, DecidableEq

/-- The `Ord for WithIndex` comparator of the source, as a relation:
`a` precedes `b` when its payload is at least `b`'s (data descending). -/
def wiLE (a b : WithIndex) : Prop := b.data ≤ a.data

instance : DecidableRel wiLE := fun a b =>
  inferInstanceAs (Decidable (b.data ≤ a.data))

instance : IsTotal WithIndex wiLE := ⟨fun a b => le_total b.data a.data⟩

instance : IsTrans WithIndex wiLE :=
  ⟨fun _ _ _ hab hbc => le_trans hbc hab⟩

/-- One iteration of `topk`'s row loop: enumerate the row, sort by data
descending, keep the first `k` entries. -/
def topkRow (row : List Int) (k : Nat) : List WithIndex :=
  (List.insertionSort wiLE (row.enum.map fun p => ⟨p.1, p.2⟩)).take k

/-- `topk` (src/models/mixtral/cpu/src/infer.rs lines 305–344): per row,
the `k` retained payloads (written to `weight`) and their columns
(written to `indices`). -/
def topk (logits : List (List Int)) (k : Nat) :
    List (List Int) × List (List Nat) :=
  (logits.map fun row => (topkRow row k).map WithIndex.data,
   logits.map fun row => (topkRow row k).map WithIndex.idx)

/-- The two `revert` calls of the sequence `revert(n); revert(n)`: the
second call runs on the state the first call left behind (a panic in the
first call aborts the sequence). -/
def Session.revert_twice (maxSeqLen : Nat) (s : Session σ) (n : Nat) :
    Option (Session σ × Option ChatError) :=
  match Session.revert maxSeqLen s n with
  | none => none
  | some (s', _) => Session.revert maxSeqLen s' n

/-!
# Theorems for the claims
-/

/-- `Session::revert` in the `Greater` branch: error, nothing touched. -/
theorem Session.revert_greater {σ : Type} (m : Nat) (s : Session σ)
    (n : Nat) (h : s.dialog.num_sentences < n) :
    Session.revert m s n = some (s, some ChatError.mk) := by
  unfold Session.revert
  rw [if_neg (by omega), if_neg (by omega)]

/-- `Session::revert` in the `Equal` branch: success, nothing touched. -/
theorem Session.revert_equal {σ : Type} (m : Nat) (s : Session σ) :
    Session.revert m s s.dialog.num_sentences = some (s, none) := by
  unfold Session.revert
  rw [if_neg (by omega), if_pos rfl]

/-- `Session::revert` in the `Less` branch panics when the cache is
borrowed (`self.cache.as_mut().unwrap()` on `None`). -/
theorem Session.revert_less_none {σ : Type} (m : Nat) (s : Session σ)
    (n : Nat) (h : n < s.dialog.num_sentences) (hc : s.cache = none) :
    Session.revert m s n = none := by
  unfold Session.revert
  rw [if_pos h, hc]

/-- `Session::revert` in the `Less` branch with a present cache: success;
the dialog is truncated and the session keeps some cache. -/
theorem Session.revert_less_some {σ : Type} (m : Nat) (s : Session σ)
    (n : Nat) (c : Cache) (h : n < s.dialog.num_sentences)
    (hc : s.cache = some c) :
    ∃ c', Session.revert m s n
      = some ({ s with dialog := s.dialog.revert n, cache := some c' },
              none) := by
  unfold Session.revert
  rw [if_pos h, hc]
  exact ⟨_, rfl⟩

/-- Claim C1: `revert(n)` returns `ChatError` exactly when `n` exceeds
the number of dialog sentences, and whenever it does, the session is
returned unchanged — dialog, cache and sample settings all keep their
previous values. -/
theorem claim_C1 {σ : Type} (s : Session σ) (m n : Nat) :
    (s.dialog.num_sentences < n →
      Session.revert m s n = some (s, some ChatError.mk))
    ∧ (∀ s' e, Session.revert m s n = some (s', some e) →
        s.dialog.num_sentences < n ∧ s' = s ∧ s'.dialog = s.dialog
        ∧ s'.cache = s.cache ∧ s'.sample = s.sample) := by
  refine ⟨fun h => Session.revert_greater m s n h, ?_⟩
  intro s' e h
  rcases Nat.lt_trichotomy n s.dialog.num_sentences with h1 | h1 | h1
  · cases hc : s.cache with
    | none =>
      rw [Session.revert_less_none m s n h1 hc] at h
      exact absurd h (by simp)
    | some c =>
      obtain ⟨c', hrw⟩ := Session.revert_less_some m s n c h1 hc
      rw [hrw] at h
      simp at h
  · subst h1
    rw [Session.revert_equal] at h
    simp at h
  · rw [Session.revert_greater m s n h1] at h
    simp only [Option.some.injEq, Prod.mk.injEq] at h
    exact ⟨h1, h.1.symm, by rw [h.1], by rw [h.1], by rw [h.1]⟩

/-- Witness for C1: a two-sentence dialog reverted to position 9. -/
theorem claim_C1_witness :
    Session.revert (σ := Nat) 4 ⟨0, ⟨[[1], [2]]⟩, some ⟨[1, 2], 0, 2⟩⟩ 9
      = some (⟨0, ⟨[[1], [2]]⟩, some ⟨[1, 2], 0, 2⟩⟩, some ChatError.mk) :=
  (claim_C1 ⟨0, ⟨[[1], [2]]⟩, some ⟨[1, 2], 0, 2⟩⟩ 4 9).1 (by decide)

/-- Claim C5: `revert(n); revert(n)` has the same effect on the session
and the same result as a single `revert(n)` — after a successful
`revert(n)` the dialog has exactly `n` sentences so the second call takes
the no-op `Equal` branch, and after a failure the state is unchanged so
the second call behaves identically. -/
theorem claim_C5 {σ : Type} (s : Session σ) (m n : Nat) :
    Session.revert_twice m s n = Session.revert m s n := by
  rcases Nat.lt_trichotomy n s.dialog.num_sentences with h1 | h1 | h1
  · cases hc : s.cache with
    | none =>
      simp [Session.revert_twice, Session.revert_less_none m s n h1 hc]
    | some c =>
      obtain ⟨c', hrw⟩ := Session.revert_less_some m s n c h1 hc
      simp only [Session.revert_twice, hrw]
      have hns :
          ({ s with dialog := s.dialog.revert n, cache := some c' } :
            Session σ).dialog.num_sentences = n := by
        simp only [Dialog.num_sentences, Dialog.revert, List.length_take]
        exact Nat.min_eq_left (Nat.le_of_lt h1)
      have heq := Session.revert_equal m
        ({ s with dialog := s.dialog.revert n, cache := some c' })
      rw [hns] at heq
      exact heq
  · subst h1
    simp [Session.revert_twice, Session.revert_equal]
  · simp [Session.revert_twice, Session.revert_greater m s n h1]

/-- Witness for C5 at a concrete session and revert position. -/
theorem claim_C5_witness :
    Session.revert_twice (σ := Nat) 4 ⟨0, ⟨[[1], [2]]⟩, some ⟨[1, 2], 0, 2⟩⟩ 1
      = Session.revert 4 ⟨0, ⟨[[1], [2]]⟩, some ⟨[1, 2], 0, 2⟩⟩ 1 :=
  claim_C5 ⟨0, ⟨[[1], [2]]⟩, some ⟨[1, 2], 0, 2⟩⟩ 4 1

/-- `Cache::push` then `slice_tail`: the tail past `i` of the extended
token list is the old tail followed by the pushed token. -/
theorem Cache.slice_tail_push (c : Cache) (t i : Nat)
    (h : i ≤ c.tokens.length) :
    (c.push t).slice_tail i = c.tokens.drop i ++ [t] := by
  simp [Cache.push, Cache.extend, Cache.slice_tail,
    List.drop_append_of_le_length h]

/-- Claim C2: dropping a `BusySession` gives the cache back to the
session; when the cache's token list grew beyond the dialog's token
count, an EOS is appended to the cache and the newly generated tokens
(followed by that EOS) are pushed as a fresh dialog sentence; when
nothing was generated, neither the EOS append nor the sentence push
happens. -/
theorem claim_C2 {σ : Type} (s : Session σ) (c : Cache) (eos : Nat) :
    (s.dialog.num_tokens < c.tokens.length →
      (BusySession.drop eos s c).dialog
          = s.dialog.push
              (c.tokens.drop s.dialog.num_tokens ++ [eos])
        ∧ (BusySession.drop eos s c).cache
          = some ((c.push eos).cleanup_before_start)
        ∧ (BusySession.drop eos s c).sample = s.sample)
    ∧ (c.tokens.length ≤ s.dialog.num_tokens →
      (BusySession.drop eos s c).dialog = s.dialog
        ∧ (BusySession.drop eos s c).cache
          = some (c.cleanup_before_start)
        ∧ (BusySession.drop eos s c).sample = s.sample) := by
  constructor
  · intro h
    refine ⟨?_, ?_, ?_⟩
    · have hc : (BusySession.drop eos s c).dialog
          = s.dialog.push ((c.push eos).slice_tail s.dialog.num_tokens) := by
        simp [BusySession.drop, Session.restore_cache, Cache.end_, h]
      rw [hc, Cache.slice_tail_push c eos _ (Nat.le_of_lt h)]
    · simp [BusySession.drop, Session.restore_cache, Cache.end_, h]
    · simp [BusySession.drop, Session.restore_cache, Cache.end_, h]
  · intro h
    have hend : ¬ s.dialog.num_tokens < c.tokens.length := by omega
    refine ⟨?_, ?_, ?_⟩ <;>
      simp [BusySession.drop, Session.restore_cache, Cache.end_, hend]

/-- Witness for C2 in both branches: a cache that generated two tokens
past a one-token dialog, and the same cache with nothing generated. -/
theorem claim_C2_witness :
    (BusySession.drop (σ := Nat) 2 ⟨0, ⟨[[7]]⟩, none⟩ ⟨[7, 8, 9], 0, 3⟩).dialog
        = (Dialog.mk [[7]]).push ([8, 9] ++ [2])
    ∧ (BusySession.drop (σ := Nat) 2 ⟨0, ⟨[[7]]⟩, none⟩ ⟨[7], 0, 1⟩).dialog
        = Dialog.mk [[7]] := by
  refine ⟨?_, ?_⟩
  · exact ((claim_C2 ⟨0, ⟨[[7]]⟩, none⟩ ⟨[7, 8, 9], 0, 3⟩ 2).1 (by decide)).1
  · exact ((claim_C2 ⟨0, ⟨[[7]]⟩, none⟩ ⟨[7], 0, 1⟩ 2).2 (by decide)).1

/-- Claim C3: after `Batcher::shutdown()` has been called — and after any
further operations — every `enq(item)` is a silent no-op leaving the
queue empty, and every `deq()` returns the empty vector without blocking
(its wait condition is already satisfied because the batcher is dead). -/
theorem claim_C3 {T : Type} (b : Batcher T) (ops : List (Batcher.Op T))
    (v : T) :
    ((b.shutdown.run ops).enq v) = b.shutdown.run ops
    ∧ ((b.shutdown.run ops).enq v).queue = []
    ∧ ((b.shutdown.run ops).deq).1 = []
    ∧ (b.shutdown.run ops).deqReady := by
  obtain ⟨hq, ha⟩ := Batcher.run_dead b.shutdown ops rfl rfl
  refine ⟨?_, ?_, ?_, ?_⟩
  · simp [Batcher.enq, ha]
  · simp [Batcher.enq, ha, hq]
  · simpa [Batcher.deq] using hq
  · simp [Batcher.deqReady, ha]

/-- Witness for C3 at a concrete shutdown batcher and operation run. -/
theorem claim_C3_witness :
    (((Batcher.shutdown (T := Nat) ⟨[3], true⟩).run
        [Batcher.Op.enq 4]).enq 5).queue = []
    ∧ (((Batcher.shutdown (T := Nat) ⟨[3], true⟩).run
        [Batcher.Op.enq 4]).deq).1 = [] := by
  have h := claim_C3 (T := Nat) ⟨[3], true⟩ [Batcher.Op.enq 4] 5
  exact ⟨h.2.1, h.2.2.1⟩

/-- An alive batcher accumulates a run of enqueues in FIFO order. -/
theorem Batcher.run_enqs {T : Type} (b : Batcher T) (vs : List T)
    (hb : b.alive = true) :
    b.run (vs.map Batcher.Op.enq) = ⟨b.queue ++ vs, true⟩ := by
  induction vs generalizing b with
  | nil => cases b; simp_all [Batcher.run]
  | cons v t ih =>
    rw [List.map_cons, Batcher.run_cons]
    have hstep : b.step (Batcher.Op.enq v) = ⟨b.queue ++ [v], true⟩ := by
      cases b; simp_all [Batcher.step, Batcher.enq]
    rw [hstep, ih _ rfl]
    simp

/-- Claim C4: `deq()` atomically takes the whole internal vector — after a
single producer enqueues `vs` on an alive batcher, `deq` returns the
prior queue followed by `vs` in enqueue order and leaves the queue empty;
moreover whenever `deq`'s wait exits with the batcher still alive, the
returned vector is non-empty. -/
theorem claim_C4 {T : Type} (b : Batcher T) (vs : List T)
    (hb : b.alive = true) :
    ((b.run (vs.map Batcher.Op.enq)).deq).1 = b.queue ++ vs
    ∧ ((b.run (vs.map Batcher.Op.enq)).deq).2.queue = []
    ∧ (∀ c : Batcher T, c.deqReady → c.alive = true → (c.deq).1 ≠ []) := by
  rw [Batcher.run_enqs b vs hb]
  refine ⟨rfl, rfl, ?_⟩
  intro c hready hca h
  exact hready ⟨h, hca⟩

/-- Witness for C4 at a concrete batcher and producer run. -/
theorem claim_C4_witness :
    ((Batcher.run ⟨[5], true⟩ ([7, 9].map Batcher.Op.enq)).deq).1
        = [5, 7, 9]
    ∧ ((Batcher.run (T := Nat) ⟨[5], true⟩
        ([7, 9].map Batcher.Op.enq)).deq).2.queue = [] := by
  have h := claim_C4 (T := Nat) ⟨[5], true⟩ [7, 9] rfl
  exact ⟨h.1, h.2.1⟩

/-- Claim C9: tokenizer auto-detection — `tokenizer.model` present selects
the byte-pair encoder and byte-pair common normalizer regardless of
`vocabs.txt`; otherwise `vocabs.txt` selects the linear-piece encoder and
identity normalizer; with neither file, loading panics. -/
theorem claim_C9 (dir : ModelDir) :
    (dir.hasTokenizerModel = true →
      tokenizer dir = some .bpe ∧ normalizer dir = some .bpeCommon)
    ∧ (dir.hasTokenizerModel = false → dir.hasVocabsTxt = true →
      tokenizer dir = some .lpe ∧ normalizer dir = some .identity)
    ∧ (dir.hasTokenizerModel = false → dir.hasVocabsTxt = false →
      tokenizer dir = none ∧ normalizer dir = none) := by
  obtain ⟨tm, vt⟩ := dir
  cases tm <;> cases vt <;> simp [tokenizer, normalizer]

/-- Witness for C9 at the three concrete directory contents. -/
theorem claim_C9_witness :
    (tokenizer ⟨true, true⟩ = some .bpe
      ∧ normalizer ⟨true, true⟩ = some .bpeCommon)
    ∧ (tokenizer ⟨false, true⟩ = some .lpe
      ∧ normalizer ⟨false, true⟩ = some .identity)
    ∧ (tokenizer ⟨false, false⟩ = none
      ∧ normalizer ⟨false, false⟩ = none) :=
  ⟨(claim_C9 ⟨true, true⟩).1 rfl,
   (claim_C9 ⟨false, true⟩).2.1 rfl rfl,
   (claim_C9 ⟨false, false⟩).2.2 rfl rfl⟩

/-- Counterexample to C7: a model declaring `F32` is cast to `F16` by
`Transformer::new`, so the workspace tensors of `update` are `F16`, not
the declared `F32` (same for `BF16`). -/
theorem claim_C7_counterexample :
    Transformer.newModelDt .F32 = .F16
    ∧ (∀ dt ∈ Transformer.updateWorkspaceDts (Transformer.newModelDt .F32),
        dt ≠ .F32)
    ∧ Transformer.decodeLogitsDt (Transformer.newModelDt .F32) ≠ .F32 := by
  decide

/-- Claim C7 (amended): the hidden-state and workspace tensors of
`update` and the logits of `decode` all use the data type of the *stored*
model, which is `F16` when the declared type is `BF16` or `F32` and the
declared type itself otherwise. -/
theorem claim_C7 (declared : DataType) :
    Transformer.newModelDt declared
      = (if declared = .BF16 ∨ declared = .F32 then .F16 else declared)
    ∧ (∀ dt ∈ Transformer.updateWorkspaceDts (Transformer.newModelDt declared),
        dt = Transformer.newModelDt declared)
    ∧ Transformer.decodeLogitsDt (Transformer.newModelDt declared)
      = Transformer.newModelDt declared := by
  cases declared <;> decide

/-- Witness for C7 (amended) at `F32` and at `F16`. -/
theorem claim_C7_witness :
    (Transformer.newModelDt .F32
        = (if DataType.F32 = .BF16 ∨ DataType.F32 = .F32
            then DataType.F16 else .F32))
    ∧ DataType.F16 ∈ Transformer.updateWorkspaceDts (Transformer.newModelDt .F32)
    ∧ DataType.F16 = Transformer.newModelDt .F32 :=
  ⟨(claim_C7 .F32).1, by decide, ((claim_C7 .F32).2.1 .F16 (by decide)).symm ▸ rfl⟩

/-- Claim C10: `Transformer::decode` panics exactly when some request's
token slice does not have length 1; under the precondition that every
request carries exactly one token, the assertion never fails and decode
proceeds over the batch. -/
theorem claim_C10 (requests : List Request) :
    (Transformer.decodeGate requests = none
      ↔ ∃ r ∈ requests, r.seq_len ≠ 1)
    ∧ ((∀ r ∈ requests, r.seq_len = 1) →
      Transformer.decodeGate requests = some requests.length) := by
  constructor
  · unfold Transformer.decodeGate
    by_cases h : requests.all (fun r => r.seq_len == 1)
    · simp only [h, if_true]
      simp only [List.all_eq_true, beq_iff_eq] at h
      simp only [reduceCtorEq, false_iff]
      rintro ⟨r, hr, hne⟩
      exact hne (h r hr)
    · simp only [h, if_false]
      simp only [List.all_eq_true, beq_iff_eq] at h
      push_neg at h
      simpa using h
  · intro h
    unfold Transformer.decodeGate
    have : requests.all (fun r => r.seq_len == 1) := by
      simp only [List.all_eq_true, beq_iff_eq]
      exact h
    simp [this]

/-- Witness for C10: a two-token request panics; a batch of one-token
requests passes the assertion. -/
theorem claim_C10_witness :
    Transformer.decodeGate [⟨[3, 4], 0⟩] = none
    ∧ Transformer.decodeGate [⟨[3], 0⟩, ⟨[4], 7⟩] = some 2 :=
  ⟨(claim_C10 [⟨[3, 4], 0⟩]).1.mpr ⟨⟨[3, 4], 0⟩, by decide, by decide⟩,
   (claim_C10 [⟨[3], 0⟩, ⟨[4], 7⟩]).2 (by decide)⟩

theorem forwardOps_succ (i n : Nat) :
    forwardOps i (n + 1) = layerOps i ++ forwardOps i n := rfl

theorem layerOps_length (i : Nat) : (layerOps i).length = 10 := by
  simp [layerOps, selfAttOps, mlpOps]

/-- Claim C6: in the tensor-parallel forward pass, the output-projection
gemm's residual coefficient β is 1 exactly on shard 0 and the MLP's
residual flag is set exactly on shard 0 (each occurring once per layer),
an `all_reduce(SUM)` is issued twice per layer, and the op immediately
following the output projection — and the one immediately following the
MLP — is an `all_reduce(SUM)` on the residual. -/
theorem claim_C6 (i nlayers : Nat) :
    (∀ β, DistOp.oProjMatMul β ∈ forwardOps i nlayers → (β = 1 ↔ i = 0))
    ∧ (∀ f, DistOp.mlpKernel f ∈ forwardOps i nlayers → (f = true ↔ i = 0))
    ∧ (forwardOps i nlayers).count
        (DistOp.oProjMatMul (if i = 0 then 1 else 0)) = nlayers
    ∧ (forwardOps i nlayers).count (DistOp.mlpKernel (i == 0)) = nlayers
    ∧ (forwardOps i nlayers).count (DistOp.allReduce .sum) = 2 * nlayers
    ∧ (∀ k β, (forwardOps i nlayers)[k]? = some (DistOp.oProjMatMul β) →
        (forwardOps i nlayers)[k + 1]? = some (DistOp.allReduce .sum))
    ∧ (∀ k f, (forwardOps i nlayers)[k]? = some (DistOp.mlpKernel f) →
        (forwardOps i nlayers)[k + 1]? = some (DistOp.allReduce .sum)) := by
  induction nlayers with
  | zero => refine ⟨?_, ?_, rfl, rfl, rfl, ?_, ?_⟩ <;> simp [forwardOps]
  | succ n ih =>
    obtain ⟨ih1, ih2, ih3, ih4, ih5, ih6, ih7⟩ := ih
    rw [forwardOps_succ]
    refine ⟨?_, ?_, ?_, ?_, ?_, ?_, ?_⟩
    · intro β hβ
      rcases List.mem_append.1 hβ with h | h
      · by_cases hi : i = 0 <;>
          simp [layerOps, selfAttOps, mlpOps, hi] at h <;> simp [h, hi]
      · exact ih1 β h
    · intro f hf
      rcases List.mem_append.1 hf with h | h
      · by_cases hi : i = 0 <;>
          simp [layerOps, selfAttOps, mlpOps, hi] at h <;> simp [h, hi]
      · exact ih2 f h
    · rw [List.count_append, ih3]
      have : (layerOps i).count
          (DistOp.oProjMatMul (if i = 0 then 1 else 0)) = 1 := by
        by_cases hi : i = 0 <;>
          simp [layerOps, selfAttOps, mlpOps, List.count_cons, hi]
      omega
    · rw [List.count_append, ih4]
      have : (layerOps i).count (DistOp.mlpKernel (i == 0)) = 1 := by
        by_cases hi : i = 0 <;>
          simp [layerOps, selfAttOps, mlpOps, List.count_cons, hi]
      omega
    · rw [List.count_append, ih5]
      have : (layerOps i).count (DistOp.allReduce .sum) = 2 := by
        simp [layerOps, selfAttOps, mlpOps, List.count_cons]
      omega
    · intro k β h
      by_cases hk : k < (layerOps i).length
      · rw [List.getElem?_append_left hk] at h
        rw [layerOps_length] at hk
        have hk5 : k = 5 := by
          interval_cases k <;>
            simp_all [layerOps, selfAttOps, mlpOps]
        subst hk5
        rw [List.getElem?_append_left (by rw [layerOps_length]; omega)]
        simp [layerOps, selfAttOps, mlpOps]
      · rw [List.getElem?_append_right (Nat.le_of_not_lt hk)] at h
        rw [List.getElem?_append_right
          (by omega : (layerOps i).length ≤ k + 1)]
        have harith : k + 1 - (layerOps i).length
            = (k - (layerOps i).length) + 1 := by omega
        rw [harith]
        exact ih6 _ β h
    · intro k f h
      by_cases hk : k < (layerOps i).length
      · rw [List.getElem?_append_left hk] at h
        rw [layerOps_length] at hk
        have hk8 : k = 8 := by
          interval_cases k <;>
            simp_all [layerOps, selfAttOps, mlpOps]
        subst hk8
        rw [List.getElem?_append_left (by rw [layerOps_length]; omega)]
        simp [layerOps, selfAttOps, mlpOps]
      · rw [List.getElem?_append_right (Nat.le_of_not_lt hk)] at h
        rw [List.getElem?_append_right
          (by omega : (layerOps i).length ≤ k + 1)]
        have harith : k + 1 - (layerOps i).length
            = (k - (layerOps i).length) + 1 := by omega
        rw [harith]
        exact ih7 _ f h

/-- Witness for C6 on shard 0 with one layer: the β of the occurring
output projection is 1, and the op after the output projection (at
index 5) is the `all_reduce(SUM)` at index 6. -/
theorem claim_C6_witness :
    ((1 : Nat) = 1 ↔ (0 : Nat) = 0)
    ∧ (forwardOps 0 1)[6]? = some (DistOp.allReduce .sum)
    ∧ (forwardOps 0 1)[9]? = some (DistOp.allReduce .sum) := by
  have h := claim_C6 0 1
  exact ⟨h.1 1 (by decide), h.2.2.2.2.2.1 5 1 (by decide),
    h.2.2.2.2.2.2 8 true (by decide)⟩

theorem map_data_orderedInsert (a : WithIndex) (l : List WithIndex) :
    (List.orderedInsert wiLE a l).map WithIndex.data
      = List.orderedInsert (· ≥ ·) a.data (l.map WithIndex.data) := by
  induction l with
  | nil => rfl
  | cons b t ih =>
    by_cases h : b.data ≤ a.data
    · simp [List.orderedInsert, wiLE, h, ge_iff_le]
    · simp [List.orderedInsert, wiLE, h, ge_iff_le, ih]

theorem map_data_insertionSort (l : List WithIndex) :
    (List.insertionSort wiLE l).map WithIndex.data
      = List.insertionSort (· ≥ ·) (l.map WithIndex.data) := by
  induction l with
  | nil => rfl
  | cons a t ih => simp [List.insertionSort, map_data_orderedInsert, ih]

theorem enum_mk_map_data (l : List Int) :
    ((l.enum.map fun p => WithIndex.mk p.1 p.2).map WithIndex.data) = l := by
  rw [List.map_map]
  exact List.enum_map_snd l

/-- The weights a `topk` row produces are the row's values sorted
descending, truncated to `k`. -/
theorem topkRow_map_data (row : List Int) (k : Nat) :
    (topkRow row k).map WithIndex.data
      = (List.insertionSort (· ≥ ·) row).take k := by
  unfold topkRow
  rw [List.map_take, map_data_insertionSort, enum_mk_map_data]

/-- Every entry a `topk` row keeps points back at its column. -/
theorem topkRow_indices (row : List Int) (k : Nat) :
    ∀ wi ∈ topkRow row k, row[wi.idx]? = some wi.data := by
  intro wi hwi
  have h1 : wi ∈ List.insertionSort wiLE
      (row.enum.map fun p => WithIndex.mk p.1 p.2) :=
    (List.take_sublist _ _).mem hwi
  have h2 : wi ∈ row.enum.map fun p => WithIndex.mk p.1 p.2 :=
    ((List.perm_insertionSort wiLE _).mem_iff).1 h1
  obtain ⟨p, hp, rfl⟩ := List.mem_map.1 h2
  exact List.mem_enum_iff_getElem?.1 hp

/-- Claim C8: on the S5 logits rows with `k = 2`, `topk` returns weights
`[2,1; 4,3]` and indices `[1,6; 4,0]`; in general each row's output
holds the `k` largest values of the row in non-increasing order (the
descending sort truncated to `k`), each paired with a column index at
which the row holds that value. -/
theorem claim_C8 :
    topk [[0, 2, 0, 0, 0, 0, 1, 0], [3, 0, 0, 0, 4, 0, 0, 0]] 2
        = ([[2, 1], [4, 3]], [[1, 6], [4, 0]])
    ∧ ∀ (row : List Int) (k : Nat), k ≤ row.length →
        ((topkRow row k).map WithIndex.data
            = (List.insertionSort (· ≥ ·) row).take k)
        ∧ List.Sorted (· ≥ ·) ((topkRow row k).map WithIndex.data)
        ∧ ∀ wi ∈ topkRow row k, row[wi.idx]? = some wi.data := by
  refine ⟨by decide, fun row k _ =>
    ⟨topkRow_map_data row k, ?_, topkRow_indices row k⟩⟩
  rw [topkRow_map_data]
  exact (List.sorted_insertionSort _ _).sublist (List.take_sublist _ _)

/-- Witness for C8 at the first S5 row. -/
theorem claim_C8_witness :
    (2 ≤ ([0, 2, 0, 0, 0, 0, 1, 0] : List Int).length)
    ∧ (topkRow [0, 2, 0, 0, 0, 0, 1, 0] 2).map WithIndex.data
        = (List.insertionSort (· ≥ ·)
            ([0, 2, 0, 0, 0, 0, 1, 0] : List Int)).take 2 :=
  ⟨by decide, (claim_C8.2 [0, 2, 0, 0, 0, 0, 1, 0] 2 (by decide)).1⟩

end InfiniLM
